import Mathlib

/-!
Shallow embedding of the remote-memory inspection engine and the syscall
decoder of the ptrace-syscalls repository (src/src/inspect.rs,
src/tracer-syscalls-macros/src/lib.rs, src/tracer-syscalls/src/syscalls.rs).

Machine words are 64-bit; tracee memory is a map from byte addresses to
optional byte values.  Loops of the source that are not structurally
terminating (they walk tracee memory until a terminator) take an explicit
fuel argument and return `none` when the fuel runs out; every theorem
below either supplies enough fuel or quantifies over it.
-/

/-- Tracee memory: a partial map from byte addresses to byte values.
A `none` entry means the address is not readable from the tracer. -/
def Mem : Type := Nat → Option Nat

/-- WORD_SIZE from src/src/inspect.rs: `size_of::<c_long>()` on 64-bit. -/
def WORD_SIZE : Nat := 8

/-- Errno EIO, the error a word peek reports when the word is not fully
readable (generic_ptrace_peekdata in the kernel returns -EIO). -/
def errnoEIO : Nat := 5

/-- Errno EFAULT, used by the address-overflow guards of inspect.rs. -/
def errnoEFAULT : Nat := 14

/-- Outcome of a raw byte-level read: the bytes, or an errno. -/
inductive ReadOutcome (α : Type) where
  | ok (v : α)
  | error (errno : Nat)
  deriving DecidableEq, Repr

/-- Read `n` consecutive bytes starting at `addr`; fails if any byte is
unreadable. -/
def readBytes (mem : Mem) (addr : Nat) : Nat → Option (List Nat)
  | 0 => some []
  | n + 1 =>
    match mem addr with
    | none => none
    | some b =>
      match readBytes mem (addr + 1) n with
      | none => none
      | some rest => some (b :: rest)

/-- The `n` bytes at `addr`, defaulting unreadable bytes to 0 (used only to
state what a successful read returns). -/
def bytesAt (mem : Mem) (addr n : Nat) : List Nat :=
  (List.range n).map (fun j => (mem (addr + j)).getD 0)

/-- ptrace::read - one machine-word peek: the 8 bytes at `addr` in address
order (little-endian), or errno EIO when the word is not fully readable. -/
def ptraceRead (mem : Mem) (addr : Nat) : ReadOutcome (List Nat) :=
  match readBytes mem addr WORD_SIZE with
  | some bytes => .ok bytes
  | none => .error errnoEIO

/-- Little-endian value of a byte list (what the peeked `c_long` is as a
number; used where the source compares the word against 0 or casts it to a
pointer). -/
def leVal (bytes : List Nat) : Nat :=
  bytes.foldr (fun b acc => b + 256 * acc) 0

/-- InspectError from src/src/inspect.rs: SyscallFailure /
ReadFailure { errno, incomplete } / DependencyInspectFailure { field }. -/
inductive InspectError (T : Type) where
  | syscallFailure
  | readFailure (errno : Nat) (incomplete : Option T)
  | dependencyInspectFailure (field : String)
  deriving DecidableEq, Repr

/-- InspectResult from src/src/inspect.rs: `Result<T, InspectError<T>>`. -/
inductive InspectResult (T : Type) where
  | ok (v : T)
  | error (e : InspectError T)
  deriving DecidableEq, Repr

/-- InspectError::map_ptrace_failure (src/src/inspect.rs lines 217-233):
maps the incomplete payload of a ReadFailure, leaves the other variants. -/
def InspectError.map_ptrace_failure {T U : Type} (e : InspectError T) (f : T → U) :
    InspectError U :=
  match e with
  | .syscallFailure => .syscallFailure
  | .readFailure errno incomplete => .readFailure errno (incomplete.map f)
  | .dependencyInspectFailure field => .dependencyInspectFailure field

/-- Models the bytes that the source's `memcpy` reads from beyond the end of
the 8-byte peeked word when `copy_len` exceeds the word (out-of-bounds read,
undefined behaviour in the source); the concrete value is immaterial. -/
def junkByte : Nat := 0

/-- Copy `n` bytes out of a buffer `l`, padding with `junkByte` when the
copy runs past the end of the buffer. -/
def takePad (n : Nat) (l : List Nat) : List Nat :=
  l.take n ++ List.replicate (n - l.length) junkByte

/-- The head copy length of read_by_ptrace_peek (src/src/inspect.rs line
119): `len.min(remote_addr as usize - align_bytes)` - note the source
subtracts the alignment from the *address*, so the second operand is the
aligned-down address itself, not `WORD_SIZE - align_bytes`. -/
def headCopyLen (remote_addr len : Nat) : Nat :=
  min len (remote_addr - remote_addr % WORD_SIZE)

/-- Peek `n` consecutive whole words (the middle loop of
read_by_ptrace_peek, src/src/inspect.rs lines 131-137). -/
def peekWords (mem : Mem) (addr : Nat) : Nat → ReadOutcome (List Nat)
  | 0 => .ok []
  | n + 1 =>
    match ptraceRead mem addr with
    | .error e => .error e
    | .ok w =>
      match peekWords mem (addr + WORD_SIZE) n with
      | .error e => .error e
      | .ok rest => .ok (w ++ rest)

/-- read_by_ptrace_peek (src/src/inspect.rs lines 104-146): overflow check,
misaligned head word (with the source's head copy length), whole words,
then the unaligned tail word.  Returns the bytes written to `dest`. -/
def read_by_ptrace_peek (mem : Mem) (remote_addr len : Nat) : ReadOutcome (List Nat) :=
  if 2 ^ 64 ≤ remote_addr + len then .error errnoEFAULT
  else
    let align_bytes := remote_addr % WORD_SIZE
    let headStep : ReadOutcome (List Nat × Nat × Nat) :=
      if align_bytes ≠ 0 then
        match ptraceRead mem (remote_addr - align_bytes) with
        | .error e => .error e
        | .ok word =>
          let copy_len := headCopyLen remote_addr len
          .ok (takePad copy_len (word.drop align_bytes), remote_addr + copy_len, len - copy_len)
      else .ok ([], remote_addr, len)
    match headStep with
    | .error e => .error e
    | .ok (head, addr1, len1) =>
      match peekWords mem addr1 (len1 / WORD_SIZE) with
      | .error e => .error e
      | .ok mid =>
        let left_over := len1 % WORD_SIZE
        if left_over > 0 then
          match ptraceRead mem (addr1 + WORD_SIZE * (len1 / WORD_SIZE)) with
          | .error e => .error e
          | .ok w => .ok (head ++ mid ++ w.take left_over)
        else .ok (head ++ mid)

/-- read_generic_string (src/src/inspect.rs lines 323-349): peek words,
scan their bytes for a terminating zero, accumulate the bytes read so far
in `buf`; on a failed peek return ReadFailure carrying `ctor buf`. -/
def read_generic_string {σ : Type} (mem : Mem) (ctor : List Nat → σ) :
    Nat → Nat → List Nat → Option (InspectResult σ)
  | 0, _, _ => none
  | fuel + 1, address, buf =>
    match ptraceRead mem address with
    | .error e => some (.error (.readFailure e (some (ctor buf))))
    | .ok wordBytes =>
      if wordBytes.any (fun b => b == 0) then
        some (.ok (ctor (buf ++ wordBytes.takeWhile (fun b => b != 0))))
      else
        read_generic_string mem ctor fuel (address + WORD_SIZE) (buf ++ wordBytes)

/-- read_cstring / read_pathbuf specialised with an identity constructor
(the source wraps the accumulated bytes in CString / PathBuf). -/
def read_cstring (mem : Mem) (fuel address : Nat) : Option (InspectResult (List Nat)) :=
  read_generic_string mem (fun x => x) fuel address []

/-- read_null_ended_array (src/src/inspect.rs lines 365-394): peek one word
per slot; a zero word ends the array, a nonzero word is treated as a
pointer and handed to the element reader; failures carry the elements read
so far (via map_ptrace_failure for element failures). -/
def read_null_ended_array {T : Type} (mem : Mem) (readElem : Nat → InspectResult T) :
    Nat → Nat → List T → Option (InspectResult (List T))
  | 0, _, _ => none
  | fuel + 1, address, res =>
    match ptraceRead mem address with
    | .error errno => some (.error (.readFailure errno (some res)))
    | .ok wordBytes =>
      let ptr := leVal wordBytes
      if ptr = 0 then some (.ok res)
      else
        match readElem ptr with
        | .ok item => read_null_ended_array mem readElem fuel (address + WORD_SIZE) (res ++ [item])
        | .error e => some (.error (e.map_ptrace_failure (fun _ => res)))

/-- Loop body of InspectCountedFromPid for InspectResult<Vec<T>>
(src/src/inspect.rs lines 432-453): `n` elements remain, `i` is the next
index, `res` the elements read so far; on an element failure the failing
element's own incomplete value is pushed onto `res` inside
map_ptrace_failure. -/
def inspect_counted_go {T : Type} (readElem : Nat → InspectResult T) (sizeOfT address : Nat) :
    Nat → Nat → List T → InspectResult (List T)
  | 0, _, res => .ok res
  | n + 1, i, res =>
    match readElem (address + i * sizeOfT) with
    | .ok item => inspect_counted_go readElem sizeOfT address n (i + 1) (res ++ [item])
    | .error e => .error (e.map_ptrace_failure (fun incomplete => res ++ [incomplete]))

/-- InspectCountedFromPid for InspectResult<Vec<T>> (src/src/inspect.rs
lines 432-453). -/
def inspect_counted {T : Type} (readElem : Nat → InspectResult T)
    (sizeOfT address count : Nat) : InspectResult (List T) :=
  inspect_counted_go readElem sizeOfT address count 0 []

/-- Abstract byte reader standing for `read_remote_memory(pid, addr, len)`:
given an address and a length, the bytes or an errno. -/
def RawReader : Type := Nat → Nat → ReadOutcome (List Nat)

/-- InspectFromPid for a ReprC fixed-size type (src/src/inspect.rs lines
298-315): one read_remote_memory of size_of::<T>() bytes; a failure never
carries an incomplete value. -/
def inspect_fixed (R : RawReader) (size address : Nat) : InspectResult (List Nat) :=
  match R address size with
  | .ok bytes => .ok bytes
  | .error errno => .error (.readFailure errno none)

/-- The reader every request of fewer than two words actually uses
(read_remote_memory's first branch): the ptrace-peek path. -/
def peekReader (mem : Mem) : RawReader :=
  fun addr len => read_by_ptrace_peek mem addr len

/-- Which kernel facility a read request invoked. -/
inductive ReadPath where
  | peek
  | processVmReadv
  deriving DecidableEq, Repr

/-- One read_remote_memory request, abstracted to what decides its control
flow: its length and whether the bulk facility would fail at the
operating-system level for it. -/
structure ReadReq where
  len : Nat
  bulkFails : Bool
  deriving DecidableEq, Repr

/-- Initial value of SHOULD_USE_PROCESS_VM_READV (src/src/inspect.rs line
77): `AtomicBool::new(true)`. -/
def SHOULD_USE_PROCESS_VM_READV_INIT : Bool := true

/-- Control flow of read_remote_memory (src/src/inspect.rs lines 80-101):
short requests peek; otherwise, if the flag is set, try the bulk facility,
and on its failure clear the flag and fall back to the peek path.  Returns
the new flag value and the facilities invoked, in order. -/
def read_remote_memory_step (flag : Bool) (r : ReadReq) : Bool × List ReadPath :=
  if r.len < WORD_SIZE * 2 then (flag, [.peek])
  else if flag then
    if r.bulkFails then (false, [.processVmReadv, .peek])
    else (true, [.processVmReadv])
  else (flag, [.peek])

/-- The flag value after a sequence of read requests. -/
def runFlag : Bool → List ReadReq → Bool
  | flag, [] => flag
  | flag, r :: rs => runFlag (read_remote_memory_step flag r).1 rs

/-- The facilities invoked, in order, over a sequence of read requests. -/
def runPaths : Bool → List ReadReq → List ReadPath
  | _, [] => []
  | flag, r :: rs =>
    (read_remote_memory_step flag r).2 ++ runPaths (read_remote_memory_step flag r).1 rs

/-- IOV_MAX as the source defines it (src/src/inspect.rs line 156):
`nix::libc::_SC_IOV_MAX as usize`, the sysconf *key*, which is 60 on
Linux. -/
def IOV_MAX : Nat := 60

/-- The page size cached in PAGE_SIZE (4096 on the supported targets). -/
def PAGE_SIZE : Nat := 4096

/-- Inner iovec-construction loop of read_by_process_vm_readv
(src/src/inspect.rs lines 166-188): split the remaining range at page
boundaries into up to IOV_MAX iovecs, decrementing `len` as each iovec is
planned; EFAULT on address overflow.  Returns the iovecs, the remaining
length and the new cursor. -/
def buildRiovs (len cur used : Nat) (acc : List (Nat × Nat)) :
    ReadOutcome (List (Nat × Nat) × Nat × Nat) :=
  if len = 0 then .ok (acc, len, cur)
  else if used = IOV_MAX then .ok (acc, len, cur)
  else if 2 ^ 64 - 1 ≤ cur then .error errnoEFAULT
  else
    let misalignment := cur % PAGE_SIZE
    let iov_len := min (PAGE_SIZE - misalignment) len
    if 2 ^ 64 ≤ cur + iov_len then .error errnoEFAULT
    else buildRiovs (len - iov_len) (cur + iov_len) (used + 1) (acc ++ [(cur, iov_len)])
termination_by len
decreasing_by
  have hmis : cur % PAGE_SIZE < PAGE_SIZE := Nat.mod_lt _ (by decide)
  simp only [PAGE_SIZE] at hmis ⊢
  omega

/-- Outer loop of read_by_process_vm_readv (src/src/inspect.rs lines
160-201): build iovecs, issue one process_vm_readv call (its return taken
from `oracle`), treat a return of exactly -1 as failure with the current
errno `lastErr`, otherwise add `read as usize` to the total and continue
while `len > 0`.  `none` means the oracle ran out (model fuel). -/
def read_by_process_vm_readv_loop (lastErr : Nat) (oracle : List Int)
    (len cur total : Nat) : Option (ReadOutcome Nat) :=
  if len = 0 then some (.ok total)
  else
    match buildRiovs len cur 0 [] with
    | .error e => some (.error e)
    | .ok (_riovs, len1, cur1) =>
      match oracle with
      | [] => none
      | r :: rest =>
        if r = -1 then some (.error lastErr)
        else read_by_process_vm_readv_loop lastErr rest len1 cur1 (total + (r % 2 ^ 64).toNat)
termination_by oracle.length
decreasing_by simp

/-- read_by_process_vm_readv (src/src/inspect.rs lines 149-203). -/
def read_by_process_vm_readv (lastErr : Nat) (oracle : List Int)
    (remote_addr len : Nat) : Option (ReadOutcome Nat) :=
  read_by_process_vm_readv_loop lastErr oracle len remote_addr 0

/-- Value of `n` reinterpreted as a `w`-bit two's-complement signed
integer (the semantics of Rust `as iN` casts). -/
def toSigned (w n : Nat) : Int :=
  if n % 2 ^ w < 2 ^ (w - 1) then (n % 2 ^ w : Int) else (n % 2 ^ w : Int) - 2 ^ w

/-- The result-type classes appearing in the syscall table, grouped by the
semantics of `syscall_res_from_regs!(regs) as T` and `(syscall_result as
isize) < 0`: 32-bit signed (c_int, pid_t, ...), 32-bit unsigned (c_uint,
mode_t, ...), 64-bit signed (ssize_t, isize, c_long, off_t, ...), 64-bit
unsigned (usize, AddressType, ...), and Unit. -/
inductive ResTy where
  | i32
  | u32
  | i64
  | u64
  | unit
  deriving DecidableEq, Repr

/-- The stored syscall_result: the raw result slot cast to the declared
result type (gen_syscall_args_struct line 273). -/
def ResTy.resultVal (t : ResTy) (slot : Nat) : Int :=
  match t with
  | .i32 => toSigned 32 slot
  | .u32 => (slot % 2 ^ 32 : Int)
  | .i64 => toSigned 64 slot
  | .u64 => (slot % 2 ^ 64 : Int)
  | .unit => 0

/-- The generated failure test `(syscall_result as isize) < 0`
(gen_syscall_args_struct line 275), `false` for Unit results (line 281).
The slot is first cast to the declared result type, so for 32-bit result
types only the low 32 bits decide the sign, and unsigned 32-bit results
never test negative. -/
def ResTy.isFailed (t : ResTy) (slot : Nat) : Bool :=
  match t with
  | .i32 => decide (2 ^ 31 ≤ slot % 2 ^ 32)
  | .u32 => false
  | .i64 => decide (2 ^ 63 ≤ slot % 2 ^ 64)
  | .u64 => decide (2 ^ 63 ≤ slot % 2 ^ 64)
  | .unit => false

/-- Universal codomain for decoded argument values: raw bytes of a
fixed-size value, string content, sequences of fixed-size elements, and
nullable values (absent = Ok(None), present = Ok(Some ...)). -/
inductive Value where
  | bytes (bs : List Nat)
  | str (bs : List Nat)
  | arrBytes (vs : List (List Nat))
  | absent
  | present (v : Value)
  deriving DecidableEq, Repr

/-- Map a result's success value and its ReadFailure incomplete payload
(the composition of Result::map with map_ptrace_failure used when a
reader's value is injected into the universal `Value` codomain). -/
def InspectResult.mapAll {T U : Type} (r : InspectResult T) (f : T → U) : InspectResult U :=
  match r with
  | .ok v => .ok (f v)
  | .error e => .error (e.map_ptrace_failure f)

/-- The argument shapes of the table that the claims touch, each tied to
its InspectFromPid implementation in src/src/inspect.rs. -/
inductive ArgShape where
  | fixed (size : Nat)
  | cstr
  | nullEndedBytes
  | optionFixed (size : Nat)
  | optionCstr
  deriving DecidableEq, Repr

/-- Wrap an inner reader result for a nonnull Option argument
(src/src/inspect.rs lines 471-522): Ok becomes Ok(Some ...), a ReadFailure
keeps its errno with the incomplete payload wrapped in Some. -/
def optionWrap (r : InspectResult Value) : InspectResult Value :=
  match r with
  | .ok v => .ok (Value.present v)
  | .error e => .error (e.map_ptrace_failure (fun v => Value.present v))

/-- Decode one inspected argument: the raw slot is taken as an address and
the shape's InspectFromPid implementation runs.  Returns the decoded value
and the addresses at which remote reading was initiated (empty exactly
when no kernel read facility was invoked). -/
def decodeShape (R : RawReader) (mem : Mem) (fuel : Nat) :
    ArgShape → Nat → Option (InspectResult Value × List Nat)
  | .fixed size, slot =>
    some ((inspect_fixed R size slot).mapAll Value.bytes, [slot])
  | .cstr, slot =>
    match read_generic_string mem (fun x => x) fuel slot [] with
    | none => none
    | some r => some (r.mapAll Value.str, [slot])
  | .nullEndedBytes, slot =>
    match read_null_ended_array mem (fun p => inspect_fixed R 1 p) fuel slot [] with
    | none => none
    | some r => some (r.mapAll Value.arrBytes, [slot])
  | .optionFixed size, slot =>
    if slot = 0 then some (.ok Value.absent, [])
    else some (optionWrap ((inspect_fixed R size slot).mapAll Value.bytes), [slot])
  | .optionCstr, slot =>
    if slot = 0 then some (.ok Value.absent, [])
    else
      match read_generic_string mem (fun x => x) fuel slot [] with
      | none => none
      | some r => some (optionWrap (r.mapAll Value.str), [slot])

/-- How one entry argument is produced: copied from the raw slot (integer
types, `need_memory_inspection == false`) or remotely inspected. -/
inductive EntryArgKind where
  | rawInt
  | inspected (shape : ArgShape)
  deriving DecidableEq, Repr

/-- One entry-argument column of a table row. -/
structure EntryArgSpec where
  name : String
  kind : EntryArgKind
  slotIdx : Nat
  deriving DecidableEq, Repr

/-- One exit-argument (modified-args) column of a table row; all exit
arguments in the table are remotely inspected. -/
structure ExitArgSpec where
  name : String
  shape : ArgShape
  slotIdx : Nat
  deriving DecidableEq, Repr

/-- One row of the gen_syscalls! table as gen_syscall_args_struct consumes
it: name, the current architecture's number, result type, entry columns
and exit columns. -/
structure SyscallSpec where
  sname : String
  number : Int
  resultTy : ResTy
  entryArgs : List EntryArgSpec
  exitArgs : List ExitArgSpec
  deriving DecidableEq, Repr

/-- Modelled from the spec: the architecture adapter
(src/src/arch/x86_64.rs and friends are not under src/; spec section 4.A
says syscall_number(), arg(i) and result() each return a machine-word-sized
unsigned integer read from a register snapshot). -/
structure PtraceRegisters where
  number : Nat
  args : List Nat
  result : Nat
  deriving DecidableEq, Repr

/-- syscall_no_from_regs!(regs) as isize. -/
def syscall_no_from_regs (regs : PtraceRegisters) : Int :=
  toSigned 64 regs.number

/-- syscall_arg!(regs, i) as a 64-bit register value. -/
def syscall_arg (regs : PtraceRegisters) (i : Nat) : Nat :=
  regs.args.getD i 0 % 2 ^ 64

/-- syscall_res_from_regs!(regs) as a 64-bit register value. -/
def syscall_res_from_regs (regs : PtraceRegisters) : Nat :=
  regs.result % 2 ^ 64

/-- The six raw argument slots of a snapshot (UnknownArgs::from_regs,
src/tracer-syscalls/src/syscalls.rs lines 36-49, and the positional
from_regs of every generated raw-args struct). -/
def sixArgs (regs : PtraceRegisters) : List Nat :=
  (List.range 6).map (syscall_arg regs)

/-- A decoded entry field: integers pass through from the raw slot,
pointer arguments carry an inspection result. -/
inductive EntryField where
  | raw (n : Nat)
  | inspected (r : InspectResult Value)
  deriving DecidableEq, Repr

/-- The generated entry-args record of one syscall. -/
structure EntryDecoded where
  fields : List (String × EntryField)
  deriving DecidableEq, Repr

/-- The generated modified-args record of one syscall: syscall_result
first, then the exit-decoded outputs. -/
structure ExitDecoded where
  syscall_result : Int
  fields : List (String × InspectResult Value)
  deriving DecidableEq, Repr

/-- Decode all entry columns in order, collecting initiated-read
addresses. -/
def decodeEntryArgs (R : RawReader) (mem : Mem) (fuel : Nat) (raw : List Nat) :
    List EntryArgSpec → Option (List (String × EntryField) × List Nat)
  | [] => some ([], [])
  | a :: rest =>
    match a.kind with
    | .rawInt =>
      match decodeEntryArgs R mem fuel raw rest with
      | none => none
      | some (fs, logs) => some ((a.name, .raw (raw.getD a.slotIdx 0)) :: fs, logs)
    | .inspected shape =>
      match decodeShape R mem fuel shape (raw.getD a.slotIdx 0) with
      | none => none
      | some (v, log) =>
        match decodeEntryArgs R mem fuel raw rest with
        | none => none
        | some (fs, logs) => some ((a.name, .inspected v) :: fs, log ++ logs)

/-- Decode all exit columns in order, collecting initiated-read
addresses. -/
def decodeExitArgs (R : RawReader) (mem : Mem) (fuel : Nat) (raw : List Nat) :
    List ExitArgSpec → Option (List (String × InspectResult Value) × List Nat)
  | [] => some ([], [])
  | a :: rest =>
    match decodeShape R mem fuel a.shape (raw.getD a.slotIdx 0) with
    | none => none
    | some (v, log) =>
      match decodeExitArgs R mem fuel raw rest with
      | none => none
      | some (fs, logs) => some ((a.name, v) :: fs, log ++ logs)

/-- The generated inspect_sysexit of one syscall (gen_syscall_args_struct,
src/tracer-syscalls-macros/src/lib.rs lines 361-375): compute
syscall_result from the exit registers, and if the failure test holds fill
every output field with Err(SyscallFailure) without reading; otherwise
decode every exit column. -/
def inspect_sysexit_known (R : RawReader) (mem : Mem) (fuel : Nat)
    (spec : SyscallSpec) (raw : List Nat) (regs : PtraceRegisters) :
    Option (ExitDecoded × List Nat) :=
  let slot := syscall_res_from_regs regs
  let sr := spec.resultTy.resultVal slot
  if spec.resultTy.isFailed slot then
    some ({ syscall_result := sr,
            fields := spec.exitArgs.map
              (fun a => (a.name, InspectResult.error InspectError.syscallFailure)) }, [])
  else
    (decodeExitArgs R mem fuel raw spec.exitArgs).map
      (fun p => ({ syscall_result := sr, fields := p.1 }, p.2))

/-- The generated inspect_sysenter of one syscall (gen_syscall_args_struct,
src/tracer-syscalls-macros/src/lib.rs lines 354-360). -/
def inspect_sysenter_known (R : RawReader) (mem : Mem) (fuel : Nat)
    (spec : SyscallSpec) (raw : List Nat) :
    Option (EntryDecoded × List Nat) :=
  (decodeEntryArgs R mem fuel raw spec.entryArgs).map (fun p => ({ fields := p.1 }, p.2))

/-- SyscallRawArgs (src/tracer-syscalls-macros/src/lib.rs lines 505-513):
one variant per table row plus Unknown carrying the number and the six raw
slots. -/
inductive SyscallRawArgs where
  | known (spec : SyscallSpec) (raw : List Nat)
  | unknown (number : Int) (args : List Nat)
  deriving DecidableEq, Repr

/-- SyscallArgs, the entry-decoded dispatch union. -/
inductive SyscallArgs where
  | known (spec : SyscallSpec) (args : EntryDecoded)
  | unknown (number : Int) (args : List Nat)
  deriving DecidableEq, Repr

/-- SyscallModifiedArgs, the exit-decoded dispatch union. -/
inductive SyscallModifiedArgs where
  | known (spec : SyscallSpec) (res : ExitDecoded)
  | unknown (number : Int) (args : List Nat)
  deriving DecidableEq, Repr

/-- SyscallRawArgs::from_regs (src/tracer-syscalls-macros/src/lib.rs lines
587-602): match the snapshot's syscall number against the table constants;
on a match build that row's raw record from the six slots, otherwise build
UnknownArgs from the number and slots. -/
def SyscallRawArgs.from_regs (table : List SyscallSpec) (regs : PtraceRegisters) :
    SyscallRawArgs :=
  match table.find? (fun s => s.number == syscall_no_from_regs regs) with
  | some spec => .known spec (sixArgs regs)
  | none => .unknown (syscall_no_from_regs regs) (sixArgs regs)

/-- SyscallNumber for SyscallRawArgs (lines 535-546): each generated raw
record reports its table constant; Unknown reports its stored number. -/
def SyscallRawArgs.syscall_number : SyscallRawArgs → Int
  | .known spec _ => spec.number
  | .unknown n _ => n

/-- SyscallNumber for SyscallArgs (lines 561-572). -/
def SyscallArgs.syscall_number : SyscallArgs → Int
  | .known spec _ => spec.number
  | .unknown n _ => n

/-- SyscallNumber for SyscallModifiedArgs (per-record impls, lines
418-424). -/
def SyscallModifiedArgs.syscall_number : SyscallModifiedArgs → Int
  | .known spec _ => spec.number
  | .unknown n _ => n

/-- SyscallStopInspect::inspect_sysenter for SyscallRawArgs (lines
608-620): dispatch per variant; Unknown flows through unchanged. -/
def SyscallRawArgs.inspect_sysenter (R : RawReader) (mem : Mem) (fuel : Nat) :
    SyscallRawArgs → Option (SyscallArgs × List Nat)
  | .known spec raw =>
    (inspect_sysenter_known R mem fuel spec raw).map (fun p => (.known spec p.1, p.2))
  | .unknown n args => some (.unknown n args, [])

/-- SyscallStopInspect::inspect_sysexit for SyscallRawArgs (lines
622-635): dispatch per variant; Unknown flows through unchanged. -/
def SyscallRawArgs.inspect_sysexit (R : RawReader) (mem : Mem) (fuel : Nat)
    (regs : PtraceRegisters) : SyscallRawArgs → Option (SyscallModifiedArgs × List Nat)
  | .known spec raw =>
    (inspect_sysexit_known R mem fuel spec raw regs).map (fun p => (.known spec p.1, p.2))
  | .unknown n args => some (.unknown n args, [])

/-- Table row read (src/tracer-syscalls/src/syscalls.rs lines 591-592),
x86_64 number 0, result ssize_t, as gen_syscall_args_struct actually
expands it: the parsed decoder annotation
`@ on_success_counted_by(syscall_result)` on buf is never consulted by the
generator (the Decoder field of ArgField has no use site in
src/tracer-syscalls-macros/src/lib.rs), so buf : Vec<u8> is decoded by
InspectFromPid for InspectResult<Vec<u8>> (src/src/inspect.rs lines
420-424), the null-terminated-array reader with u8 elements. -/
def readSpec : SyscallSpec :=
  { sname := "read", number := 0, resultTy := .i64,
    entryArgs := [⟨"fd", .rawInt, 0⟩, ⟨"count", .rawInt, 2⟩],
    exitArgs := [⟨"buf", .nullEndedBytes, 1⟩] }

/-- Table row capget (src/tracer-syscalls/src/syscalls.rs lines 95-96),
x86_64 number 125, result c_int, exit args hdrp (cap_user_header, 8 bytes)
and datap (cap_user_data, 12 bytes), both fixed-size ReprC reads. -/
def capgetSpec : SyscallSpec :=
  { sname := "capget", number := 125, resultTy := .i32,
    entryArgs := [],
    exitArgs := [⟨"hdrp", .fixed 8, 0⟩, ⟨"datap", .fixed 12, 1⟩] }

/-- The model excerpt of the syscall table (x86_64 numbers). -/
def modelTable : List SyscallSpec := [readSpec, capgetSpec]

/-- Empty tracee memory: no address is readable. -/
def memEmpty : Mem := fun _ => none

/-- Fixture for the read-exit scenario: the 8 bytes of "hello!!!" at
0x1000, nothing else readable. -/
def mem1 : Mem := fun a =>
  if 0x1000 ≤ a ∧ a < 0x1008 then
    some ([104, 101, 108, 108, 111, 33, 33, 33].getD (a - 0x1000) 0)
  else none

/-- Fixture: exit-time registers for a read syscall that returned 5. -/
def regs1 : PtraceRegisters := { number := 0, args := [7, 0x1000, 16, 0, 0, 0], result := 5 }

/-- Fixture: exit-time registers whose result slot is 2^63, i.e. negative
when interpreted as a signed machine word, with pointer slots 0x3000 and
0x3100. -/
def regs2 : PtraceRegisters :=
  { number := 125, args := [0x3000, 0x3100, 0, 0, 0, 0], result := 2 ^ 63 }

/-- Fixture for the counted read: one readable 8-byte element (every byte
7) at 0x2000; the next element at 0x2008 is unreadable. -/
def mem4 : Mem := fun a => if 0x2000 ≤ a ∧ a < 0x2008 then some 7 else none

/-- Element reader of a counted read of 8-byte ReprC elements (e.g. u64):
a fixed-size read, which for a length below two words goes through the
peek path of read_remote_memory. -/
def readElem4 : Nat → InspectResult (List Nat) := fun p => inspect_fixed (peekReader mem4) 8 p

/-- Fixture for the C-string read: exactly three readable nonzero bytes
65, 66, 67 at 0x100; the byte at 0x103 is unreadable. -/
def mem5 : Mem := fun a => if 0x100 ≤ a ∧ a < 0x103 then some (a - 0x100 + 65) else none

/-- Fixture: sixteen readable nonzero bytes at 0x400; the byte at 0x410 is
unreadable. -/
def memW : Mem := fun a => if 0x400 ≤ a ∧ a < 0x410 then some (a - 0x400 + 1) else none

/-- Fixture for the misaligned peek: readable bytes with values 1..48 at
0x1000..0x102F. -/
def mem6 : Mem := fun a => if 0x1000 ≤ a ∧ a < 0x1030 then some (a - 0x1000 + 1) else none

/-- Fixture: a register snapshot with syscall number 9999 (not in the
table) and argument slots 1..6. -/
def regsU : PtraceRegisters := { number := 9999, args := [1, 2, 3, 4, 5, 6], result := 0 }

theorem readBytes_eq_some (mem : Mem) :
    ∀ (n addr : Nat), (∀ j, j < n → (mem (addr + j)).isSome) →
      readBytes mem addr n = some (bytesAt mem addr n) := by
  intro n
  induction n with
  | zero => intro addr _; simp [readBytes, bytesAt]
  | succ m ih =>
    intro addr h
    have h0 : (mem addr).isSome := by simpa using h 0 (Nat.succ_pos m)
    obtain ⟨b, hb⟩ := Option.isSome_iff_exists.mp h0
    have hrest : readBytes mem (addr + 1) m = some (bytesAt mem (addr + 1) m) := by
      apply ih
      intro j hj
      have := h (j + 1) (Nat.succ_lt_succ hj)
      simpa [Nat.add_assoc, Nat.add_comm 1 j] using this
    have hview : bytesAt mem addr (m + 1) = b :: bytesAt mem (addr + 1) m := by
      simp only [bytesAt, List.range_succ_eq_map, List.map_cons, List.map_map]
      congr 1
      · simp [hb]
      · apply List.map_congr_left
        intro j _
        have harith : addr + (j + 1) = addr + 1 + j := by omega
        simp [Function.comp, harith]
    rw [readBytes, hb, hrest, hview]

theorem readBytes_eq_none (mem : Mem) :
    ∀ (n addr k : Nat), k < n → mem (addr + k) = none →
      readBytes mem addr n = none := by
  intro n
  induction n with
  | zero => intro addr k hk; omega
  | succ m ih =>
    intro addr k hk hnone
    rw [readBytes]
    rcases Nat.eq_zero_or_pos k with hk0 | hkpos
    · subst hk0; simp only [Nat.add_zero] at hnone; rw [hnone]
    · rcases hmem : mem addr with _ | b
      · rfl
      · have : readBytes mem (addr + 1) m = none := by
          apply ih (addr + 1) (k - 1) (by omega)
          have harith : addr + 1 + (k - 1) = addr + k := by omega
          rw [harith]; exact hnone
        rw [this]

theorem bytesAt_append (mem : Mem) (addr m n : Nat) :
    bytesAt mem addr (m + n) = bytesAt mem addr m ++ bytesAt mem (addr + m) n := by
  simp only [bytesAt, List.range_add, List.map_append, List.map_map]
  congr 1
  apply List.map_congr_left
  intro j _
  simp [Function.comp, Nat.add_assoc, Nat.add_comm m j]

theorem read_remote_memory_step_false (r : ReadReq) :
    read_remote_memory_step false r = (false, [ReadPath.peek]) := by
  unfold read_remote_memory_step
  split <;> rfl

theorem runFlag_false : ∀ rs : List ReadReq, runFlag false rs = false := by
  intro rs
  induction rs with
  | nil => rfl
  | cons r rs ih =>
    rw [runFlag, read_remote_memory_step_false]
    exact ih

theorem runPaths_false : ∀ rs : List ReadReq,
    runPaths false rs = List.replicate rs.length ReadPath.peek := by
  intro rs
  induction rs with
  | nil => rfl
  | cons r rs ih =>
    rw [runPaths, read_remote_memory_step_false, ih]
    rfl

theorem runFlag_true_of_false : ∀ rs : List ReadReq, runFlag true rs = false →
    ∃ r ∈ rs, WORD_SIZE * 2 ≤ r.len ∧ r.bulkFails = true := by
  intro rs
  induction rs with
  | nil => intro h; simp [runFlag] at h
  | cons r rs ih =>
    intro h
    rw [runFlag] at h
    by_cases hlen : r.len < WORD_SIZE * 2
    · rw [show read_remote_memory_step true r = (true, [ReadPath.peek]) by
        unfold read_remote_memory_step; rw [if_pos hlen]] at h
      obtain ⟨r', hmem, hprop⟩ := ih h
      exact ⟨r', List.mem_cons_of_mem _ hmem, hprop⟩
    · cases hb : r.bulkFails with
      | true => exact ⟨r, List.mem_cons_self _ _, by omega, hb⟩
      | false =>
        rw [show read_remote_memory_step true r = (true, [ReadPath.processVmReadv]) by
          unfold read_remote_memory_step; rw [if_neg hlen]; simp [hb]] at h
        obtain ⟨r', hmem, hprop⟩ := ih h
        exact ⟨r', List.mem_cons_of_mem _ hmem, hprop⟩

/-- C7: the process-wide bulk-read flag starts enabled; once disabled it
stays disabled, every subsequent request (in particular every request of
at least two words) uses only the word-at-a-time peek path, the bulk
facility is never invoked again; and the flag can only have become
disabled through an operating-system-level bulk failure on a request of at
least two words. -/
theorem C7_bulk_flag_sticky (pre post : List ReadReq) :
    SHOULD_USE_PROCESS_VM_READV_INIT = true
    ∧ runFlag false post = false
    ∧ runPaths false post = List.replicate post.length ReadPath.peek
    ∧ ReadPath.processVmReadv ∉ runPaths false post
    ∧ (runFlag true pre = false → ∃ r ∈ pre, WORD_SIZE * 2 ≤ r.len ∧ r.bulkFails = true) := by
  refine ⟨rfl, runFlag_false post, runPaths_false post, ?_, runFlag_true_of_false pre⟩
  rw [runPaths_false post]
  intro hm
  have := List.eq_of_mem_replicate hm
  exact absurd this (by simp)

/-- C7 witness: a two-word request that fails at the OS level disables the
flag, and the theorem then reports the failing request. -/
theorem C7_bulk_flag_sticky_witness :
    runFlag true [ReadReq.mk 16 true] = false
    ∧ ∃ r ∈ [ReadReq.mk 16 true], WORD_SIZE * 2 ≤ r.len ∧ r.bulkFails = true :=
  ⟨by decide, (C7_bulk_flag_sticky [ReadReq.mk 16 true] []).2.2.2.2 (by decide)⟩

/-- C3: a syscall number outside the table makes from_regs yield Unknown
with the number and the six slots; both decode stages pass Unknown through
unchanged with an empty read log (no remote reads). -/
theorem C3_unknown_passthrough (table : List SyscallSpec) (R : RawReader) (mem : Mem)
    (fuel : Nat) (regs regsExit : PtraceRegisters)
    (h : ∀ s ∈ table, s.number ≠ syscall_no_from_regs regs) :
    SyscallRawArgs.from_regs table regs =
      SyscallRawArgs.unknown (syscall_no_from_regs regs) (sixArgs regs)
    ∧ SyscallRawArgs.inspect_sysenter R mem fuel
        (SyscallRawArgs.unknown (syscall_no_from_regs regs) (sixArgs regs)) =
      some (SyscallArgs.unknown (syscall_no_from_regs regs) (sixArgs regs), [])
    ∧ SyscallRawArgs.inspect_sysexit R mem fuel regsExit
        (SyscallRawArgs.unknown (syscall_no_from_regs regs) (sixArgs regs)) =
      some (SyscallModifiedArgs.unknown (syscall_no_from_regs regs) (sixArgs regs), []) := by
  refine ⟨?_, rfl, rfl⟩
  unfold SyscallRawArgs.from_regs
  rw [List.find?_eq_none.mpr]
  intro s hs
  simp [h s hs]

/-- C3 witness: number 9999 with slots 1..6 against the model table. -/
theorem C3_unknown_passthrough_witness :
    (∀ s ∈ modelTable, s.number ≠ syscall_no_from_regs regsU)
    ∧ (SyscallRawArgs.from_regs modelTable regsU =
        SyscallRawArgs.unknown (syscall_no_from_regs regsU) (sixArgs regsU)
      ∧ SyscallRawArgs.inspect_sysenter (peekReader memEmpty) memEmpty 1
          (SyscallRawArgs.unknown (syscall_no_from_regs regsU) (sixArgs regsU)) =
        some (SyscallArgs.unknown (syscall_no_from_regs regsU) (sixArgs regsU), [])
      ∧ SyscallRawArgs.inspect_sysexit (peekReader memEmpty) memEmpty 1 regsU
          (SyscallRawArgs.unknown (syscall_no_from_regs regsU) (sixArgs regsU)) =
        some (SyscallModifiedArgs.unknown (syscall_no_from_regs regsU) (sixArgs regsU), [])) :=
  ⟨by decide, C3_unknown_passthrough modelTable (peekReader memEmpty) memEmpty 1 regsU regsU
    (by decide)⟩

/-- C9: an Option-shaped argument with raw slot 0 decodes to the absent
value with no remote read initiated; with a nonzero slot the inner shape's
reader runs at that address and its outcome is wrapped. -/
theorem C9_option_null (R : RawReader) (mem : Mem) (fuel size slot : Nat) :
    decodeShape R mem fuel (ArgShape.optionFixed size) 0 = some (.ok Value.absent, [])
    ∧ decodeShape R mem fuel ArgShape.optionCstr 0 = some (.ok Value.absent, [])
    ∧ (slot ≠ 0 → decodeShape R mem fuel (ArgShape.optionFixed size) slot =
        some (optionWrap ((inspect_fixed R size slot).mapAll Value.bytes), [slot])) := by
  refine ⟨by simp [decodeShape], by simp [decodeShape], fun h => by simp [decodeShape, h]⟩

/-- C9 witness: slot 0 yields the absent value without reading; slot
0x3000 invokes the fixed reader at 0x3000. -/
theorem C9_option_null_witness :
    decodeShape (peekReader memEmpty) memEmpty 1 (ArgShape.optionFixed 8) 0 =
      some (.ok Value.absent, [])
    ∧ ((0x3000 : Nat) ≠ 0
      ∧ decodeShape (peekReader memEmpty) memEmpty 1 (ArgShape.optionFixed 8) 0x3000 =
        some (optionWrap ((inspect_fixed (peekReader memEmpty) 8 0x3000).mapAll Value.bytes),
          [0x3000])) :=
  ⟨(C9_option_null (peekReader memEmpty) memEmpty 1 8 0x3000).1,
    by decide,
    (C9_option_null (peekReader memEmpty) memEmpty 1 8 0x3000).2.2 (by decide)⟩

/-- C10: both decode stages preserve syscall_number() for every RawArgs
value, whatever the registers, the reader outcomes, or the fuel. -/
theorem C10_number_preserved (R : RawReader) (mem : Mem) (fuel : Nat)
    (regs : PtraceRegisters) (raw : SyscallRawArgs)
    (outE : SyscallArgs × List Nat) (outX : SyscallModifiedArgs × List Nat) :
    (SyscallRawArgs.inspect_sysenter R mem fuel raw = some outE →
      outE.1.syscall_number = raw.syscall_number)
    ∧ (SyscallRawArgs.inspect_sysexit R mem fuel regs raw = some outX →
      outX.1.syscall_number = raw.syscall_number) := by
  constructor
  · intro h
    cases raw with
    | known spec r =>
      simp only [SyscallRawArgs.inspect_sysenter, Option.map_eq_some'] at h
      obtain ⟨p, _, hp⟩ := h
      rw [← hp]
      rfl
    | unknown n args =>
      simp only [SyscallRawArgs.inspect_sysenter, Option.some_inj] at h
      rw [← h]
      rfl
  · intro h
    cases raw with
    | known spec r =>
      simp only [SyscallRawArgs.inspect_sysexit, Option.map_eq_some'] at h
      obtain ⟨p, _, hp⟩ := h
      rw [← hp]
      rfl
    | unknown n args =>
      simp only [SyscallRawArgs.inspect_sysexit, Option.some_inj] at h
      rw [← h]
      rfl

/-- C10 witness: the Unknown raw value with number 9999 decodes at both
stages to values reporting 9999. -/
theorem C10_number_preserved_witness :
    (SyscallRawArgs.inspect_sysenter (peekReader memEmpty) memEmpty 1
        (SyscallRawArgs.unknown 9999 [1, 2, 3, 4, 5, 6]) =
      some (SyscallArgs.unknown 9999 [1, 2, 3, 4, 5, 6], [])
    ∧ (SyscallArgs.unknown 9999 [1, 2, 3, 4, 5, 6],
        ([] : List Nat)).1.syscall_number =
      (SyscallRawArgs.unknown 9999 [1, 2, 3, 4, 5, 6]).syscall_number) :=
  ⟨by decide,
    (C10_number_preserved (peekReader memEmpty) memEmpty 1 regsU
      (SyscallRawArgs.unknown 9999 [1, 2, 3, 4, 5, 6])
      (SyscallArgs.unknown 9999 [1, 2, 3, 4, 5, 6], [])
      (SyscallModifiedArgs.unknown 9999 [1, 2, 3, 4, 5, 6], [])).1 (by decide)⟩

/-- C2 (amended): for every syscall whose result type is not Unit, when
the generated failure test holds - the result slot cast to the declared
result type is negative as an isize, which coincides with the sign of the
slot as a signed machine word for 64-bit result types but depends only on
the low 32 bits for 32-bit result types - every field other than
syscall_result is Err(SyscallFailure) and no remote read is initiated. -/
theorem C2_exit_failure_zeroing (R : RawReader) (mem : Mem) (fuel : Nat)
    (spec : SyscallSpec) (raw : List Nat) (regs : PtraceRegisters)
    (hunit : spec.resultTy ≠ ResTy.unit)
    (hfail : spec.resultTy.isFailed (syscall_res_from_regs regs) = true) :
    inspect_sysexit_known R mem fuel spec raw regs =
      some ({ syscall_result := spec.resultTy.resultVal (syscall_res_from_regs regs),
              fields := spec.exitArgs.map
                (fun a => (a.name, InspectResult.error InspectError.syscallFailure)) }, []) := by
  simp [inspect_sysexit_known, hfail]

/-- C2 witness: capget (result c_int) with result slot 2^64-1 (i.e. -1):
both exit fields become Err(SyscallFailure) and the read log is empty. -/
theorem C2_exit_failure_zeroing_witness :
    (capgetSpec.resultTy ≠ ResTy.unit
      ∧ capgetSpec.resultTy.isFailed (syscall_res_from_regs
          { number := 125, args := [0x3000, 0x3100, 0, 0, 0, 0], result := 2 ^ 64 - 1 }) = true)
    ∧ inspect_sysexit_known (peekReader memEmpty) memEmpty 1 capgetSpec
        [0x3000, 0x3100, 0, 0, 0, 0]
        { number := 125, args := [0x3000, 0x3100, 0, 0, 0, 0], result := 2 ^ 64 - 1 } =
      some ({ syscall_result := capgetSpec.resultTy.resultVal (syscall_res_from_regs
                { number := 125, args := [0x3000, 0x3100, 0, 0, 0, 0], result := 2 ^ 64 - 1 }),
              fields := capgetSpec.exitArgs.map
                (fun a => (a.name, InspectResult.error InspectError.syscallFailure)) }, []) :=
  ⟨⟨by decide, by decide⟩,
    C2_exit_failure_zeroing (peekReader memEmpty) memEmpty 1 capgetSpec
      [0x3000, 0x3100, 0, 0, 0, 0]
      { number := 125, args := [0x3000, 0x3100, 0, 0, 0, 0], result := 2 ^ 64 - 1 }
      (by decide) (by decide)⟩

/-- C2 counterexample: capget's declared result type is c_int, so the
generated test truncates the slot to 32 bits before the sign check.  With
result slot 2^63 - negative as a signed machine word - the low 32 bits are
0, the success path runs, remote reads are initiated at both output
pointers, and the fields carry ReadFailure, not SyscallFailure; the claim
as stated is therefore false at this input. -/
theorem C2_exit_failure_zeroing_counterexample :
    toSigned 64 regs2.result < 0
    ∧ capgetSpec.resultTy ≠ ResTy.unit
    ∧ inspect_sysexit_known (peekReader memEmpty) memEmpty 1 capgetSpec
        [0x3000, 0x3100, 0, 0, 0, 0] regs2 =
      some ({ syscall_result := 0,
              fields := [("hdrp", InspectResult.error (InspectError.readFailure errnoEIO none)),
                         ("datap", InspectResult.error (InspectError.readFailure errnoEIO none))] },
        [0x3000, 0x3100])
    ∧ (InspectResult.error (InspectError.readFailure errnoEIO none) : InspectResult Value) ≠
      InspectResult.error InspectError.syscallFailure
    ∧ ([0x3000, 0x3100] : List Nat) ≠ [] := by
  decide

/-- C1: at the read exit with raw (fd=7, buf_addr=0x1000, count=16), exit
result 5 and the bytes "hello!!!" readable at 0x1000, the generated exit
decode does not produce Ok of the first five bytes: the decoder annotation
on_success_counted_by(syscall_result) is parsed but never used by
gen_syscall_args_struct, so buf is decoded by the null-terminated-array
reader for Vec<u8>, which treats the first word of the buffer as a pointer
and fails, yielding Err(ReadFailure) with no incomplete value. -/
theorem C1_read_exit_not_counted :
    SyscallRawArgs.inspect_sysexit (peekReader mem1) mem1 10 regs1
        (SyscallRawArgs.known readSpec [7, 0x1000, 16, 0, 0, 0]) =
      some (SyscallModifiedArgs.known readSpec
        { syscall_result := 5,
          fields := [("buf", InspectResult.error (InspectError.readFailure errnoEIO none))] },
        [0x1000])
    ∧ bytesAt mem1 0x1000 5 = [104, 101, 108, 108, 111]
    ∧ (InspectResult.error (InspectError.readFailure errnoEIO none) : InspectResult Value) ≠
      InspectResult.ok (Value.arrBytes [[104], [101], [108], [108], [111]]) := by
  decide

theorem inspect_counted_go_spec {T : Type} (readElem : Nat → InspectResult T)
    (sizeOfT address : Nat) (f : Nat → T) (e : InspectError T) :
    ∀ (t n i : Nat) (res : List T), t < n →
      (∀ j, j < t → readElem (address + (i + j) * sizeOfT) = .ok (f (i + j))) →
      readElem (address + (i + t) * sizeOfT) = .error e →
      inspect_counted_go readElem sizeOfT address n i res =
        .error (e.map_ptrace_failure
          (fun inc => res ++ (List.range t).map (fun j => f (i + j)) ++ [inc])) := by
  intro t
  induction t with
  | zero =>
    intro n i res hn hok herr
    cases n with
    | zero => omega
    | succ m =>
      simp only [Nat.add_zero] at herr
      rw [inspect_counted_go, herr]
      simp
  | succ t ih =>
    intro n i res hn hok herr
    cases n with
    | zero => omega
    | succ m =>
      have h0 : readElem (address + i * sizeOfT) = .ok (f i) := by
        have := hok 0 (Nat.succ_pos t)
        simpa using this
      rw [inspect_counted_go, h0]
      show inspect_counted_go readElem sizeOfT address m (i + 1) (res ++ [f i]) = _
      have hok1 : ∀ j, j < t →
          readElem (address + (i + 1 + j) * sizeOfT) = .ok (f (i + 1 + j)) := by
        intro j hj
        have h2 := hok (j + 1) (by omega)
        have e1 : i + (j + 1) = i + 1 + j := by omega
        rw [e1] at h2
        exact h2
      have herr1 : readElem (address + (i + 1 + t) * sizeOfT) = .error e := by
        have e1 : i + (t + 1) = i + 1 + t := by omega
        rw [e1] at herr
        exact herr
      rw [ih m (i + 1) (res ++ [f i]) (by omega) hok1 herr1]
      have hfun : (fun inc => (res ++ [f i]) ++ (List.range t).map (fun j => f (i + 1 + j)) ++ [inc])
          = (fun inc => res ++ (List.range (t + 1)).map (fun j => f (i + j)) ++ [inc]) := by
        funext inc
        have hL : (List.range (t + 1)).map (fun j => f (i + j)) =
            f i :: (List.range t).map (fun j => f (i + 1 + j)) := by
          rw [List.range_succ_eq_map, List.map_cons, List.map_map]
          congr 1
          apply List.map_congr_left
          intro j _
          simp only [Function.comp]
          congr 1
          omega
        rw [hL]
        simp
      rw [hfun]

/-- C4 (amended): when elements 0..i-1 of a counted read succeed and
element i fails with error e, the counted read fails with e's kind; its
incomplete payload is the element's own incomplete payload pushed onto the
i successful elements - so it is None when the element error carried no
incomplete value, and has length i+1 (ending in the incomplete element)
when it did, never exactly the i successful elements. -/
theorem C4_counted_partial {T : Type} (readElem : Nat → InspectResult T)
    (sizeOfT address count i : Nat) (f : Nat → T) (e : InspectError T)
    (hi : i < count)
    (hok : ∀ j, j < i → readElem (address + j * sizeOfT) = .ok (f j))
    (herr : readElem (address + i * sizeOfT) = .error e) :
    inspect_counted readElem sizeOfT address count =
      .error (e.map_ptrace_failure (fun inc => (List.range i).map f ++ [inc])) := by
  unfold inspect_counted
  have hok0 : ∀ j, j < i → readElem (address + (0 + j) * sizeOfT) = .ok (f (0 + j)) := by
    intro j hj
    simpa [Nat.zero_add] using hok j hj
  have herr0 : readElem (address + (0 + i) * sizeOfT) = .error e := by
    simpa [Nat.zero_add] using herr
  rw [inspect_counted_go_spec readElem sizeOfT address f e i count 0 [] hi hok0 herr0]
  have hfun : (fun inc => ([] : List T) ++ (List.range i).map (fun j => f (0 + j)) ++ [inc])
      = (fun inc => (List.range i).map f ++ [inc]) := by
    funext inc
    simp
  rw [hfun]

/-- C4 witness: element 0 (8 bytes of 7) reads Ok, element 1 is
unreadable; the fixed-size element error carries no incomplete value, so
the counted read returns Fail with incomplete = None. -/
theorem C4_counted_partial_witness :
    ((1 : Nat) < 2
      ∧ (∀ j, j < 1 → readElem4 (0x2000 + j * 8) = .ok [7, 7, 7, 7, 7, 7, 7, 7])
      ∧ readElem4 (0x2000 + 1 * 8) = .error (.readFailure errnoEIO none))
    ∧ inspect_counted readElem4 8 0x2000 2 =
      .error ((InspectError.readFailure errnoEIO none).map_ptrace_failure
        (fun inc => (List.range 1).map (fun _ => [7, 7, 7, 7, 7, 7, 7, 7]) ++ [inc])) :=
  ⟨⟨by decide, by decide, by decide⟩,
    C4_counted_partial readElem4 8 0x2000 2 1 (fun _ => [7, 7, 7, 7, 7, 7, 7, 7])
      (.readFailure errnoEIO none) (by decide) (by decide) (by decide)⟩

/-- C4 counterexample: element 0 was read successfully, yet the Fail
returned by the counted read carries incomplete = None, not the one-element
prefix the claim requires. -/
theorem C4_counted_partial_counterexample :
    readElem4 (0x2000 + 0 * 8) = .ok [7, 7, 7, 7, 7, 7, 7, 7]
    ∧ inspect_counted readElem4 8 0x2000 2 = .error (.readFailure errnoEIO none)
    ∧ InspectError.readFailure errnoEIO (none : Option (List (List Nat))) ≠
        InspectError.readFailure errnoEIO (some [[7, 7, 7, 7, 7, 7, 7, 7]]) := by
  decide

theorem read_generic_string_spec {σ : Type} (mem : Mem) (ctor : List Nat → σ) :
    ∀ (fuel k addr : Nat) (buf : List Nat),
      (∀ j, j < k → (mem (addr + j)).isSome ∧ (mem (addr + j)).getD 0 ≠ 0) →
      mem (addr + k) = none →
      k / WORD_SIZE + 1 ≤ fuel →
      read_generic_string mem ctor fuel addr buf =
        some (.error (.readFailure errnoEIO
          (some (ctor (buf ++ bytesAt mem addr (WORD_SIZE * (k / WORD_SIZE))))))) := by
  intro fuel
  induction fuel with
  | zero => intro k addr buf _ _ hf; exact absurd hf (Nat.not_succ_le_zero _)
  | succ f ih =>
    intro k addr buf hread hfail hf
    by_cases hk : k < WORD_SIZE
    · have hnone : readBytes mem addr WORD_SIZE = none :=
        readBytes_eq_none mem WORD_SIZE addr k hk hfail
      have hdiv : k / WORD_SIZE = 0 := Nat.div_eq_of_lt hk
      rw [read_generic_string]
      rw [show ptraceRead mem addr = .error errnoEIO by unfold ptraceRead; rw [hnone]]
      simp [hdiv, bytesAt]
    · push_neg at hk
      have hsome : readBytes mem addr WORD_SIZE = some (bytesAt mem addr WORD_SIZE) := by
        apply readBytes_eq_some
        intro j hj
        exact (hread j (by simp only [WORD_SIZE] at hk hj ⊢; omega)).1
      have hptrace : ptraceRead mem addr = .ok (bytesAt mem addr WORD_SIZE) := by
        unfold ptraceRead; rw [hsome]
      have hnozero : (bytesAt mem addr WORD_SIZE).any (fun b => b == 0) = false := by
        rw [List.any_eq_false]
        intro b hb
        simp only [bytesAt, List.mem_map, List.mem_range] at hb
        obtain ⟨j, hj, hbj⟩ := hb
        have := (hread j (by simp only [WORD_SIZE] at hk hj ⊢; omega)).2
        rw [hbj] at this
        simp [this]
      rw [read_generic_string, hptrace]
      show (if (bytesAt mem addr WORD_SIZE).any (fun b => b == 0) = true then _ else _) = _
      rw [hnozero]
      simp only [Bool.false_eq_true, if_false]
      have hread1 : ∀ j, j < k - WORD_SIZE →
          (mem (addr + WORD_SIZE + j)).isSome ∧ (mem (addr + WORD_SIZE + j)).getD 0 ≠ 0 := by
        intro j hj
        have e1 : addr + WORD_SIZE + j = addr + (WORD_SIZE + j) := by omega
        rw [e1]
        exact hread (WORD_SIZE + j) (by omega)
      have hfail1 : mem (addr + WORD_SIZE + (k - WORD_SIZE)) = none := by
        have e1 : addr + WORD_SIZE + (k - WORD_SIZE) = addr + k := by omega
        rw [e1]
        exact hfail
      have hf1 : (k - WORD_SIZE) / WORD_SIZE + 1 ≤ f := by
        simp only [WORD_SIZE] at hf hk ⊢
        omega
      rw [ih (k - WORD_SIZE) (addr + WORD_SIZE) (buf ++ bytesAt mem addr WORD_SIZE) hread1
        hfail1 hf1]
      have hsplit : WORD_SIZE * (k / WORD_SIZE) =
          WORD_SIZE + WORD_SIZE * ((k - WORD_SIZE) / WORD_SIZE) := by
        simp only [WORD_SIZE] at hk ⊢
        omega
      rw [hsplit, bytesAt_append, List.append_assoc]

/-- C5 (amended): for a C-string whose bytes at offsets 0..k-1 are
readable and nonzero and whose byte at offset k is unreadable, the read
fails with ReadFailure carrying exactly the first
WORD_SIZE * (k / WORD_SIZE) bytes - the word-granular prefix, which equals
the first k bytes exactly when k is a multiple of the word size (the peek
that covers offset k fails as a whole, dropping the bytes of its word). -/
theorem C5_cstring_word_granular {σ : Type} (mem : Mem) (ctor : List Nat → σ)
    (addr k fuel : Nat)
    (hread : ∀ j, j < k → (mem (addr + j)).isSome ∧ (mem (addr + j)).getD 0 ≠ 0)
    (hfail : mem (addr + k) = none)
    (hfuel : k / WORD_SIZE + 1 ≤ fuel) :
    read_generic_string mem ctor fuel addr [] =
      some (.error (.readFailure errnoEIO
        (some (ctor (bytesAt mem addr (WORD_SIZE * (k / WORD_SIZE))))))) := by
  have h := read_generic_string_spec mem ctor fuel k addr [] hread hfail hfuel
  simpa using h

/-- C5 witness: sixteen readable nonzero bytes then an unreadable byte;
k = 16 is a word multiple, so the incomplete prefix is exactly the first
16 bytes. -/
theorem C5_cstring_word_granular_witness :
    ((∀ j, j < 16 → (memW (0x400 + j)).isSome ∧ (memW (0x400 + j)).getD 0 ≠ 0)
      ∧ memW (0x400 + 16) = none
      ∧ 16 / WORD_SIZE + 1 ≤ 3)
    ∧ read_generic_string memW (fun x => x) 3 0x400 [] =
      some (.error (.readFailure errnoEIO
        (some (bytesAt memW 0x400 (WORD_SIZE * (16 / WORD_SIZE)))))) :=
  ⟨⟨by decide, by decide, by decide⟩,
    C5_cstring_word_granular memW (fun x => x) 0x400 16 3 (by decide) (by decide) (by decide)⟩

/-- C5 counterexample: three readable nonzero bytes 65,66,67 then an
unreadable byte (k = 3, not a word multiple): the first peek covers offset
3 and fails as a whole, so the incomplete prefix is [] and not the first 3
bytes the claim requires. -/
theorem C5_cstring_word_granular_counterexample :
    (∀ j, j < 3 → (mem5 (0x100 + j)).isSome ∧ (mem5 (0x100 + j)).getD 0 ≠ 0)
    ∧ mem5 (0x100 + 3) = none
    ∧ read_cstring mem5 2 0x100 = some (.error (.readFailure errnoEIO (some [])))
    ∧ bytesAt mem5 0x100 3 = [65, 66, 67]
    ∧ some ([] : List Nat) ≠ some [65, 66, 67] := by
  decide

/-- C6: at the misaligned address 0x1003 (alignment offset 3) with len 16,
the head copy length the source computes is min(16, aligned_addr) = 16,
not the min(16, WORD_SIZE - 3) = 5 the claim states: the whole request is
"copied" out of the single 8-byte peeked word (reading 11 bytes out of
bounds of it), and the result differs from the actual 16 bytes at
0x1003. -/
theorem C6_head_copy_len_bug :
    headCopyLen 0x1003 16 = 16
    ∧ min 16 (WORD_SIZE - 0x1003 % WORD_SIZE) = 5
    ∧ read_by_ptrace_peek mem6 0x1003 16 =
        .ok ([4, 5, 6, 7, 8] ++ List.replicate 11 junkByte)
    ∧ read_by_ptrace_peek mem6 0x1003 16 ≠ .ok (bytesAt mem6 0x1003 16) := by
  decide

theorem buildRiovs_error_efault : ∀ (len : Nat), ∀ (cur used : Nat) (acc : List (Nat × Nat))
    (e : Nat), buildRiovs len cur used acc = .error e → e = errnoEFAULT := by
  intro len
  induction len using Nat.strong_induction_on with
  | _ len ih =>
    intro cur used acc e h
    unfold buildRiovs at h
    split at h
    · exact absurd h (by simp)
    · split at h
      · exact absurd h (by simp)
      · split at h
        · cases h
          rfl
        · simp only [] at h
          split at h
          · cases h
            rfl
          · rename_i h0 _ _ _
            have hmis : cur % PAGE_SIZE < PAGE_SIZE := Nat.mod_lt _ (by decide)
            exact ih (len - min (PAGE_SIZE - cur % PAGE_SIZE) len)
              (by simp only [PAGE_SIZE] at hmis ⊢; omega) _ _ _ _ h

theorem read_vm_loop_error : ∀ (oracle : List Int) (lastErr len cur total e : Nat),
    read_by_process_vm_readv_loop lastErr oracle len cur total = some (.error e) →
    e = errnoEFAULT ∨ (-1 : Int) ∈ oracle := by
  intro oracle
  induction oracle with
  | nil =>
    intro lastErr len cur total e h
    unfold read_by_process_vm_readv_loop at h
    split at h
    · exact absurd h (by simp)
    · split at h
      · rename_i e' heq
        left
        have he : e' = e := ReadOutcome.error.inj (Option.some.inj h)
        rw [← he]
        exact buildRiovs_error_efault _ _ _ _ _ heq
      · exact absurd h (by simp)
  | cons r rest ih =>
    intro lastErr len cur total e h
    unfold read_by_process_vm_readv_loop at h
    split at h
    · exact absurd h (by simp)
    · split at h
      · rename_i e' heq
        left
        have he : e' = e := ReadOutcome.error.inj (Option.some.inj h)
        rw [← he]
        exact buildRiovs_error_efault _ _ _ _ _ heq
      · dsimp only at h
        split at h
        · rename_i hr
          right
          rw [show r = -1 from hr]
          exact List.mem_cons_self _ _
        · rcases ih _ _ _ _ _ h with hl | hr
          · exact Or.inl hl
          · exact Or.inr (List.mem_cons_of_mem _ hr)

/-- C8 (amended): in the bulk path only a syscall return of exactly -1 is
converted into a read failure (with the current errno); the only other
failures are the EFAULT address-overflow guards.  A zero or other negative
return is accumulated into the total and the loop proceeds, so the
function can return Ok while having read fewer bytes than requested. -/
theorem C8_bulk_only_minus_one (lastErr : Nat) (oracle : List Int)
    (remote_addr len e : Nat)
    (h : read_by_process_vm_readv lastErr oracle remote_addr len = some (.error e)) :
    e = errnoEFAULT ∨ (-1 : Int) ∈ oracle := by
  exact read_vm_loop_error oracle lastErr len remote_addr 0 e h

/-- C8 witness: a bulk call whose syscall returns -1 fails with the
current errno, and the theorem attributes the failure to the -1 return. -/
theorem C8_bulk_only_minus_one_witness :
    read_by_process_vm_readv 5 [-1] 0x1000 16 = some (.error 5)
    ∧ ((5 : Nat) = errnoEFAULT ∨ (-1 : Int) ∈ ([-1] : List Int)) := by
  have hEval : read_by_process_vm_readv 5 [-1] 0x1000 16 = some (.error 5) := by
    simp [read_by_process_vm_readv, read_by_process_vm_readv_loop, buildRiovs, IOV_MAX,
      PAGE_SIZE]
  exact ⟨hEval, C8_bulk_only_minus_one 5 [-1] 0x1000 16 5 hEval⟩

/-- C8 counterexample: a nonpositive (zero) syscall return is not
converted into a read failure - the bulk read returns Ok 0, contradicting
the claim that every nonpositive return becomes a failure. -/
theorem C8_bulk_only_minus_one_counterexample :
    (0 : Int) ≤ 0
    ∧ read_by_process_vm_readv 5 [0] 0x1000 16 = some (.ok 0) := by
  refine ⟨le_refl 0, ?_⟩
  simp [read_by_process_vm_readv, read_by_process_vm_readv_loop, buildRiovs, IOV_MAX,
    PAGE_SIZE]
